import Mathlib

/-!
Verification of the ScheduleSystem repository (frontend schedule engine and
draft/publish lifecycle).

The definitions below are a shallow embedding of the TypeScript sources:

* `src/frontend/src/pages/Schedules.tsx` — the schedule store operations
  (`handleGenerateSchedule`, `handlePublishSchedule`, `handleDeleteSchedule`,
  `handleOnCallAssignment`, `handleEchoLabAssignment`) and their helpers
  (`hasApprovedTimeOff`, `isOnCallSchedulePublished`, `canGenerateEchoLab`).
* `src/frontend/src/utils/scheduleGenerator.ts` — the `ScheduleGenerator`
  class (`isEmployeeAvailable`, `hadShiftLastWeek`, `findBestEmployeeForShift`,
  `generateSchedule`).

Modelling conventions:

* JavaScript objects used as string-keyed dictionaries are represented as
  association lists (`List (String × α)`); `lookupKey` is property read
  (first matching key) and `setKey` is property write (update the existing
  key in place, otherwise append, as JS object insertion order does).
* Calendar dates are day numbers (`Int`); `date-fns` `addDays`/`setDate`
  arithmetic becomes integer addition, `isWithinInterval` becomes an
  inclusive comparison, and the weekday of a day number is taken modulo 7
  (day 0 being a Thursday, as in the Unix epoch).
* `Math.random()` draws are externalized: each generator takes the random
  index stream as an explicit argument, and `x[Math.floor(Math.random()*n)]`
  becomes indexing by an arbitrary natural reduced mod `n`, which ranges
  over exactly the indices the source can draw.
* Code that can throw a `TypeError` (indexing into `undefined`) is modelled
  in `Except Unit`; `Except.error ()` is the thrown exception.
* JavaScript `Array.prototype.sort` with the comparator
  `(a, b) => b.score - a.score` is (per the ECMAScript spec) a stable sort
  descending by score; it is modelled by a stable insertion sort, which
  produces the same list.
-/

/-! ## Association-list primitives (JS object semantics) -/

/-- Property read `obj[k]` on a string-keyed JS object. -/
def lookupKey {α : Type} (k : String) (l : List (String × α)) : Option α :=
  (l.find? (fun p => p.1 = k)).map (fun p => p.2)

/-- Property write `obj[k] = v` on a string-keyed JS object: update the
existing key in place, otherwise append (JS object insertion order). -/
def setKey {α : Type} (k : String) (v : α) : List (String × α) → List (String × α)
  | [] => [(k, v)]
  | p :: ps => if p.1 = k then (k, v) :: ps else p :: setKey k v ps

theorem lookup_setKey_self {α : Type} (k : String) (v : α) (l : List (String × α)) :
    lookupKey k (setKey k v l) = some v := by
  induction l with
  | nil => simp [setKey, lookupKey, List.find?]
  | cons p ps ih =>
    by_cases h : p.1 = k
    · simp [setKey, h, lookupKey, List.find?]
    · simp only [setKey, if_neg h]
      simpa [lookupKey, List.find?, h] using ih

theorem lookup_setKey_ne {α : Type} {k k' : String} (h : k' ≠ k) (v : α)
    (l : List (String × α)) :
    lookupKey k' (setKey k v l) = lookupKey k' l := by
  induction l with
  | nil => simp [setKey, lookupKey, List.find?, Ne.symm h]
  | cons p ps ih =>
    by_cases hp : p.1 = k
    · subst hp
      simp [setKey, lookupKey, List.find?, Ne.symm h]
    · simp only [setKey, if_neg hp]
      by_cases hp' : p.1 = k'
      · simp [lookupKey, List.find?, hp']
      · simpa [lookupKey, List.find?, hp'] using ih

/-! ## Data model (SchedulerContext.tsx) -/

/-- A time-off request record, as delivered by the GraphQL employee query
(`timeOffRequests` in `SchedulerContext.tsx`).  Dates are day numbers. -/
structure TimeOffRequest where
  id : String
  employeeId : String
  startDate : Int
  endDate : Int
  status : String
  deriving DecidableEq

/-- An employee record from the scheduler context (`Employee` in
`SchedulerContext.tsx`): `availability.days` is flattened to
`availabilityDays`. -/
structure Employee where
  id : String
  name : String
  role : String
  availabilityDays : List String
  maxHoursPerDay : Int
  preferredShifts : List String
  timeOffRequests : List TimeOffRequest
  deriving DecidableEq

/-- A location record (`Location` in `SchedulerContext.tsx`), restricted to
the fields the schedule page reads. -/
structure Location where
  id : String
  name : String
  deriving DecidableEq

/-- An assignment grid: subject name → day name → assignment label, as the
nested JS object `assignments` in `Schedules.tsx`. -/
abbrev Grid := List (String × List (String × String))

/-- A schedule record (`Schedule` interface in `Schedules.tsx`):
`status` is the string `draft` or `published`; `type` is `echolab` or
`oncall`; `weekStart` is a day number. -/
structure Schedule where
  id : String
  locationId : String
  locationName : String
  weekStart : Int
  assignments : Grid
  status : String
  type : String
  deriving DecidableEq

/-- Read one grid cell: `assignments?.[subject]?.[day]` (optional chaining:
`none` when the row or the cell is absent). -/
def getCell (g : Grid) (subject day : String) : Option String :=
  (lookupKey subject g).bind (fun row => lookupKey day row)

/-! ## Schedules.tsx helpers -/

/-- `hasApprovedTimeOff` (Schedules.tsx): true iff some approved time-off
request has `startDate ≤ targetDate ≤ endDate` (inclusive, as
`isWithinInterval`). -/
def hasApprovedTimeOff (employee : Employee) (targetDate : Int) : Bool :=
  employee.timeOffRequests.any (fun timeOff =>
    timeOff.status = "approved" && timeOff.startDate ≤ targetDate &&
      targetDate ≤ timeOff.endDate)

/-- `isOnCallSchedulePublished` (Schedules.tsx): a published on-call schedule
with exactly this week-start exists. -/
def isOnCallSchedulePublished (schedules : List Schedule) (weekStart : Int) : Bool :=
  (schedules.filter (fun s =>
    s.status = "published" && s.type = "oncall" && s.weekStart = weekStart)).length > 0

/-- `canGenerateEchoLab` (Schedules.tsx). -/
def canGenerateEchoLab (schedules : List Schedule) (weekStart : Int) : Bool :=
  isOnCallSchedulePublished schedules weekStart

/-- The five Echo Lab weekdays (`allDays` in `handleGenerateSchedule`). -/
def allDays : List String := ["Monday", "Tuesday", "Wednesday", "Thursday", "Friday"]

/-- The six on-call days (`allDays` in the on-call branch). -/
def onCallDays : List String :=
  ["Monday", "Tuesday", "Wednesday", "Thursday", "Friday", "Saturday"]

/-- `assignmentOptions` (Schedules.tsx, Echo Lab branch). -/
def assignmentOptions : List String :=
  ["Inpatients", "Cath/Inpat.", "OR/Inpat.", "Sedat./Inpat.", "MWH/MHM", "THC",
   "TX-Inpat.", "MPG-Fetal", "PTO", "N/A"]

/-- One Echo Lab cell of `handleGenerateSchedule` (Schedules.tsx, the body of
the inner `allDays.forEach`): the leave check, then Martha's rules, then
Emilio's rules, then the random draw.  `r` is the random index drawn for this
cell. -/
def echoCellAssign (employee : Employee) (day : String) (dayDate : Int) (r : Nat) : String :=
  if hasApprovedTimeOff employee dayDate then "PTO"
  else if employee.name = "Martha" then
    (if day = "Tuesday" || day = "Friday" then "TX-Inpat."
     else
       let workOptions := assignmentOptions.filter (fun opt => opt ≠ "PTO")
       workOptions.getD (r % workOptions.length) "")
  else if employee.name = "Emilio" && day ≠ "Friday" then "THC"
  else if day = "Friday" && employee.name = "Emilio" then
    (assignmentOptions.filter (fun opt => opt ≠ "THC")).getD
      (r % (assignmentOptions.length - 1)) ""
  else
    let workOptions := assignmentOptions.filter (fun opt => opt ≠ "PTO")
    workOptions.getD (r % workOptions.length) ""

/-- One employee's Echo Lab row: `assignments[employee.name] = {}` followed by
one cell write per day of `allDays`; the cell date is `weekStart + dayIndex`.
`r` supplies the random index for each day. -/
def buildEchoRow (employee : Employee) (weekStart : Int) (r : String → Nat) :
    List (String × String) :=
  (allDays.enum).foldl
    (fun row p =>
      setKey p.2 (echoCellAssign employee p.2 (weekStart + (p.1 : Int)) (r p.2)) row)
    []

/-- The full Echo Lab grid for one draft: one row per staff employee, in
order (`staffEmployees.forEach`). -/
def buildEchoAssignments (staff : List Employee) (weekStart : Int)
    (rng : String → String → Nat) : Grid :=
  staff.foldl (fun g employee =>
    setKey employee.name (buildEchoRow employee weekStart (rng employee.name)) g) []

/-- `schedules.find` for the published on-call schedule of this week
(Schedules.tsx, Rule 5). -/
def findOnCallSchedule (schedules : List Schedule) (weekStart : Int) : Option Schedule :=
  schedules.find? (fun s =>
    s.status = "published" && s.type = "oncall" && s.weekStart = weekStart)

/-- `assignments[jdchOnCallEmployee][day] = v`: update the named row in
place. -/
def updateCell (g : Grid) (subject day v : String) : Grid :=
  g.map (fun p => if p.1 = subject then (p.1, setKey day v p.2) else p)

/-- One day of Rule 5: if the on-call grid names a (truthy) JDCH on-call
employee for this day and that employee has a row in the Echo Lab grid, force
that cell to `OR/Inpat.`. -/
def jdchStep (onCallSchedule : Schedule) (g : Grid) (day : String) : Grid :=
  match getCell onCallSchedule.assignments "JDCH" day with
  | some jdchOnCallEmployee =>
    if jdchOnCallEmployee ≠ "" && (lookupKey jdchOnCallEmployee g).isSome then
      updateCell g jdchOnCallEmployee day "OR/Inpat."
    else g
  | none => g

/-- Rule 5 of `handleGenerateSchedule`: after the grid is built, walk
`allDays` and force the JDCH on-call employee's cell to `OR/Inpat.`. -/
def applyJdchRule (g : Grid) (onCallSchedule : Option Schedule) : Grid :=
  match onCallSchedule with
  | none => g
  | some s => allDays.foldl (jdchStep s) g

/-- The refusal message of the Echo Lab dependency gate
(`getOnCallStatusMessage`; the week-date interpolation is elided). -/
def onCallMissingMsg : String :=
  "No on-call schedule published for this week. Please publish an on-call schedule for this week first."

/-- The Echo Lab branch of `handleGenerateSchedule` (Schedules.tsx): the
dependency gate, the JDCH-location lookup, and the construction of the five
draft schedules.  `rng i name day` is the random index stream (draft index,
employee, day) and `mkId i` the fresh id of draft `i`.  On error the handler
returns before any store update, so an `Except.error` result produces zero
new drafts. -/
def handleGenerateEchoLab (schedules : List Schedule) (locations : List Location)
    (employees : List Employee) (weekStart : Int)
    (rng : Nat → String → String → Nat) (mkId : Nat → String) :
    Except String (List Schedule) :=
  if canGenerateEchoLab schedules weekStart = false then
    Except.error onCallMissingMsg
  else
    match locations.find? (fun loc => loc.name = "JDCH") with
    | none => Except.error "JDCH location not found"
    | some jdchLocation =>
      let staffEmployees := employees.filter (fun emp => emp.role = "staff")
      Except.ok ((List.range 5).map (fun i =>
        let assignments := buildEchoAssignments staffEmployees weekStart (rng i)
        let assignments :=
          applyJdchRule assignments (findOnCallSchedule schedules weekStart)
        { id := mkId i, locationId := jdchLocation.id,
          locationName := jdchLocation.name, weekStart := weekStart,
          assignments := assignments, status := "draft", type := "echolab" }))

/-- The store update after Echo Lab generation: drop every Echo Lab draft and
append the new drafts (Schedules.tsx, the `setSchedules` call of the Echo Lab
branch). -/
def echoStoreUpdate (prev newSchedules : List Schedule) : List Schedule :=
  prev.filter (fun s => !(s.status = "draft" && s.type = "echolab")) ++ newSchedules

/-- The on-call draft built by the on-call branch of `handleGenerateSchedule`:
empty JDCH and WM rows over the six on-call days. -/
def mkOnCallDraft (weekStart : Int) (newId : String) : Schedule :=
  { id := newId, locationId := "oncall", locationName := "On Call",
    weekStart := weekStart,
    assignments :=
      [("JDCH", onCallDays.foldl (fun row day => setKey day "" row) []),
       ("WM", onCallDays.foldl (fun row day => setKey day "" row) [])],
    status := "draft", type := "oncall" }

/-- The store update after on-call generation: drop every on-call draft and
append the new draft (Schedules.tsx, the `setSchedules` call of the on-call
branch). -/
def oncallStoreUpdate (prev : List Schedule) (newSchedule : Schedule) : List Schedule :=
  prev.filter (fun s => !(s.status = "draft" && s.type = "oncall")) ++ [newSchedule]

/-- `handlePublishSchedule` (Schedules.tsx and the variant in
`src/unnamed/part_004`): mark the schedule with this id published and leave
every other schedule as it is. -/
def handlePublishSchedule (schedules : List Schedule) (scheduleId : String) :
    List Schedule :=
  schedules.map (fun s =>
    if s.id = scheduleId then { s with status := "published" } else s)

/-- `handleDeleteSchedule` (Schedules.tsx). -/
def handleDeleteSchedule (schedules : List Schedule) (scheduleId : String) :
    List Schedule :=
  schedules.filter (fun schedule => schedule.id ≠ scheduleId)

/-- `handleOnCallAssignment` (Schedules.tsx): spread-update one (location,
day) cell of the schedule with this id. -/
def handleOnCallAssignment (schedules : List Schedule) (scheduleId : String)
    (location day employeeName : String) : List Schedule :=
  schedules.map (fun schedule =>
    if schedule.id = scheduleId then
      { schedule with
        assignments :=
          setKey location
            (setKey day employeeName ((lookupKey location schedule.assignments).getD []))
            schedule.assignments }
    else schedule)

/-- `handleEchoLabAssignment` (Schedules.tsx): spread-update one (employee,
day) cell of the schedule with this id. -/
def handleEchoLabAssignment (schedules : List Schedule) (scheduleId : String)
    (employeeName day assignment : String) : List Schedule :=
  schedules.map (fun schedule =>
    if schedule.id = scheduleId then
      { schedule with
        assignments :=
          setKey employeeName
            (setKey day assignment
              ((lookupKey employeeName schedule.assignments).getD []))
            schedule.assignments }
    else schedule)

/-- Published-schedule count for one (week-start, type) key. -/
def countPublished (weekStart : Int) (t : String) (schedules : List Schedule) : Nat :=
  (schedules.filter (fun s =>
    s.status = "published" && s.type = t && s.weekStart = weekStart)).length

/-! ## scheduleGenerator.ts embedding -/

/-- The `ASSIGNMENT_POOL` constant of `scheduleGenerator.ts`. -/
def ASSIGNMENT_POOL : List String :=
  ["Inpatients", "Cath/Inpat.", "OR/Inpat.", "Sedat./Inpat.", "MWH/MHM", "THC",
   "TX-Inpat.", "PTO", "N/A", ""]

/-- Weekday name of a day number (`format(date, 'EEEE')`); day 0 is a
Thursday (Unix epoch). -/
def dayOfWeekName (d : Int) : String :=
  ["Thursday", "Friday", "Saturday", "Sunday", "Monday", "Tuesday",
   "Wednesday"].getD (d % 7).toNat ""

/-- The employee shape consumed by `ScheduleGenerator` (the `Employee`
interface of `scheduleGenerator.ts`), with `availability` flattened. -/
structure GenEmployee where
  id : String
  name : String
  days : List String
  maxHoursPerDay : Int
  preferredShifts : List String
  deriving DecidableEq

/-- The shift-type union `'morning' | 'afternoon' | 'night'` of the `Shift`
interface. -/
inductive ShiftKind where
  | morning
  | afternoon
  | night
  deriving DecidableEq

/-- A `Shift` record of `scheduleGenerator.ts`. -/
structure GenShift where
  employeeId : String
  employeeName : String
  date : Int
  shiftType : ShiftKind
  deriving DecidableEq

/-- One day's entry of the previous-week `Schedule.shifts` map.  The three
arrays are `Option`s because the runtime data fed to the generator may lack
them even though the TypeScript interface declares all three. -/
structure DayShifts where
  morning : Option (List String)
  afternoon : Option (List String)
  night : Option (List String)
  deriving DecidableEq

/-- Property read `dayShifts[shiftType]` for an arbitrary string key:
`none` is JavaScript `undefined`. -/
def dayShiftsGet (ds : DayShifts) (shiftType : String) : Option (List String) :=
  if shiftType = "morning" then ds.morning
  else if shiftType = "afternoon" then ds.afternoon
  else if shiftType = "night" then ds.night
  else none

/-- The previous-week `Schedule` shape of `scheduleGenerator.ts` (only the
fields the generator reads are kept, plus identity/status). -/
structure GenSchedule where
  id : String
  locationId : String
  locationName : String
  weekStart : Int
  shifts : List (String × DayShifts)
  status : String
  deriving DecidableEq

/-- `SHIFT_TIMES[t]` with the JS fallback: an unknown key reads as
`undefined`, which stringifies inside the template literal. -/
def shiftTimeOf (t : String) : String :=
  if t = "morning" then "6AM-2PM"
  else if t = "afternoon" then "2PM-10PM"
  else if t = "night" then "10PM-6AM"
  else "undefined"

/-- `SHIFT_HOURS` lookup on the typed shift union: always 8. -/
def shiftHours : ShiftKind → Int
  | ShiftKind.morning => 8
  | ShiftKind.afternoon => 8
  | ShiftKind.night => 8

/-- `isEmployeeAvailable` (scheduleGenerator.ts): weekday availability plus a
preferred-shift entry of the form `morning (6AM-2PM)`. -/
def isEmployeeAvailable (employee : GenEmployee) (date : Int) (shiftType : String) : Bool :=
  employee.days.contains (dayOfWeekName date) &&
    employee.preferredShifts.contains
      (shiftType ++ " (" ++ shiftTimeOf shiftType ++ ")")

/-- `getEmployeeShiftCount` (scheduleGenerator.ts). -/
def getEmployeeShiftCount (employee : GenEmployee) (shifts : List GenShift) : Nat :=
  (shifts.filter (fun shift => shift.employeeId = employee.id)).length

/-- `getEmployeeHoursForDay` (scheduleGenerator.ts); `isSameDay` is equality
of day numbers. -/
def getEmployeeHoursForDay (employee : GenEmployee) (date : Int)
    (shifts : List GenShift) : Int :=
  (shifts.filter (fun shift => shift.employeeId = employee.id && shift.date = date)).foldl
    (fun total shift => total + shiftHours shift.shiftType) 0

/-- `hadShiftLastWeek` (scheduleGenerator.ts).  Indexing
`shifts[dayOfWeek][shiftType]` throws a `TypeError` when the weekday entry is
missing, and `undefined.includes` throws when the shift-type array is
missing; both are `Except.error ()`. -/
def hadShiftLastWeek (previousWeekSchedule : Option GenSchedule)
    (employee : GenEmployee) (date : Int) (shiftType : String) : Except Unit Bool :=
  match previousWeekSchedule with
  | none => Except.ok false
  | some prev =>
    let lastWeekDate := date - 7
    let dayOfWeek := dayOfWeekName lastWeekDate
    match lookupKey dayOfWeek prev.shifts with
    | none => Except.error ()
    | some ds =>
      match dayShiftsGet ds shiftType with
      | none => Except.error ()
      | some lastWeekShifts => Except.ok (lastWeekShifts.contains employee.name)

/-- The per-employee score computed inside `findBestEmployeeForShift`
(scheduleGenerator.ts), propagating the `hadShiftLastWeek` exception. -/
def scoreEmployee (previousWeekSchedule : Option GenSchedule)
    (employee : GenEmployee) (date : Int) (shiftType : String)
    (currentShifts : List GenShift) : Except Unit Int :=
  match hadShiftLastWeek previousWeekSchedule employee date shiftType with
  | Except.error e => Except.error e
  | Except.ok had =>
    let score : Int := if had then 0 else 3
    let shiftCount := getEmployeeShiftCount employee currentShifts
    let score := score + (5 - (shiftCount : Int)) * 2
    let hoursToday := getEmployeeHoursForDay employee date currentShifts
    let score := if hoursToday < employee.maxHoursPerDay then score + 2 else score
    let score := if employee.preferredShifts.contains shiftType then score + 1 else score
    Except.ok score

/-- `Array.prototype.map` with a callback that can throw: left to right,
first exception propagates. -/
def mapExcept {α β ε : Type} (f : α → Except ε β) : List α → Except ε (List β)
  | [] => Except.ok []
  | x :: xs =>
    match f x with
    | Except.error e => Except.error e
    | Except.ok y =>
      match mapExcept f xs with
      | Except.error e => Except.error e
      | Except.ok ys => Except.ok (y :: ys)

/-- Insert into a descending-by-score list, after any element of equal
score (the stable position). -/
def insertDescBy {α : Type} (f : α → Int) (x : α) : List α → List α
  | [] => [x]
  | y :: ys => if f x ≤ f y then y :: insertDescBy f x ys else x :: y :: ys

/-- Stable sort descending by score, as ECMAScript `sort((a, b) => b.score -
a.score)`. -/
def sortDescBy {α : Type} (f : α → Int) (l : List α) : List α :=
  l.foldl (fun acc x => insertDescBy f x acc) []

/-- `findBestEmployeeForShift` (scheduleGenerator.ts).  The Fisher–Yates
shuffle is externalized as the `shuffle` argument (the theorems assume it
permutes its input). -/
def findBestEmployeeForShift (shuffle : List GenEmployee → List GenEmployee)
    (previousWeekSchedule : Option GenSchedule) (employees : List GenEmployee)
    (date : Int) (shiftType : String) (currentShifts : List GenShift) :
    Except Unit (Option GenEmployee) :=
  let availableEmployees := employees.filter (fun employee =>
    isEmployeeAvailable employee date shiftType)
  if availableEmployees.length = 0 then Except.ok none
  else
    let shuffledEmployees := shuffle availableEmployees
    match mapExcept (fun employee =>
        match scoreEmployee previousWeekSchedule employee date shiftType currentShifts with
        | Except.error e => Except.error e
        | Except.ok score => Except.ok (employee, score)) shuffledEmployees with
    | Except.error e => Except.error e
    | Except.ok scoredEmployees =>
      let sorted := sortDescBy (fun p => p.2) scoredEmployees
      Except.ok (sorted.head?.map (fun p => p.1))

/-- The result shape of `ScheduleGenerator.generateSchedule`
(`StaffAssignmentSchedule`). -/
structure StaffAssignmentSchedule where
  id : String
  locationId : String
  locationName : String
  weekStart : Int
  assignments : Grid
  status : String
  deriving DecidableEq

/-- `ScheduleGenerator.generateSchedule` (scheduleGenerator.ts): for each
employee and each of the seven days starting at the (already normalized)
week start, a random draw from `ASSIGNMENT_POOL` minus the blank label on
available days, blank otherwise.  `rng name i` is the random index stream
and `mkId` the fresh id. -/
def generateSchedule (employees : List GenEmployee) (locationId locationName : String)
    (weekStart : Int) (rng : String → Nat → Nat) (mkId : String) :
    StaffAssignmentSchedule :=
  { id := mkId, locationId := locationId, locationName := locationName,
    weekStart := weekStart,
    assignments :=
      employees.foldl (fun g employee =>
        setKey employee.name
          ((List.range 7).foldl (fun row (i : Nat) =>
            let date := weekStart + (i : Int)
            let dayOfWeek := dayOfWeekName date
            if employee.days.contains dayOfWeek then
              let possibleAssignments := ASSIGNMENT_POOL.filter (fun a => a ≠ "")
              setKey dayOfWeek
                (possibleAssignments.getD
                  (rng employee.name i % possibleAssignments.length) "") row
            else setKey dayOfWeek "" row) [])
          g) [],
    status := "draft" }

/-! ## Generic list lemmas -/

theorem countP_two_of_mem {α : Type} (p : α → Bool) {l : List α} {a b : α}
    (ha : a ∈ l) (hb : b ∈ l) (hab : a ≠ b) (hpa : p a = true) (hpb : p b = true) :
    2 ≤ l.countP p := by
  induction l with
  | nil => cases ha
  | cons x xs ih =>
    rw [List.countP_cons]
    rcases List.mem_cons.mp ha with rfl | ha'
    · rcases List.mem_cons.mp hb with rfl | hb'
      · exact absurd rfl hab
      · have h1 : 0 < xs.countP p := List.countP_pos_iff.mpr ⟨b, hb', hpb⟩
        rw [if_pos hpa]
        omega
    · rcases List.mem_cons.mp hb with rfl | hb'
      · have h1 : 0 < xs.countP p := List.countP_pos_iff.mpr ⟨a, ha', hpa⟩
        rw [if_pos hpb]
        omega
      · have h2 := ih ha' hb'
        omega

/-! ## Concrete fixtures for counterexamples and witnesses -/

/-- A published on-call schedule for week `w` whose JDCH row is `jdchRow`. -/
def exPublishedOnCall (w : Int) (jdchRow : List (String × String)) : Schedule :=
  { id := "oc1", locationId := "oncall", locationName := "On Call", weekStart := w,
    assignments := [("JDCH", jdchRow), ("WM", [])], status := "published",
    type := "oncall" }

/-- The JDCH location record. -/
def exJdchLoc : Location := { id := "L1", name := "JDCH" }

/-- A staff employee with approved leave on days 100–104 and no availability
restriction relevant to the Echo Lab handler. -/
def exAlice : Employee :=
  { id := "a1", name := "Alice", role := "staff", availabilityDays := ["Monday"],
    maxHoursPerDay := 8, preferredShifts := [],
    timeOffRequests :=
      [{ id := "t1", employeeId := "a1", startDate := 100, endDate := 104,
         status := "approved" }] }

/-- A staff employee named Martha with no approved leave and an empty
available-weekday set. -/
def exMartha : Employee :=
  { id := "m1", name := "Martha", role := "staff", availabilityDays := [],
    maxHoursPerDay := 8, preferredShifts := [], timeOffRequests := [] }

/-- A staff employee named Emilio with no approved leave. -/
def exEmilio : Employee :=
  { id := "e1", name := "Emilio", role := "staff", availabilityDays := [],
    maxHoursPerDay := 8, preferredShifts := [], timeOffRequests := [] }

/-! ## C1: publish exclusivity -/

/-- C1, counterexample: starting from the empty store, generate an on-call
draft for week 100, publish it, generate again (which keeps the published
schedule), and publish the new draft: the store then holds two published
schedules with week-start 100 and type on-call, refuting the at-most-one
published invariant. -/
theorem publish_exclusivity_violated :
    countPublished 100 "oncall"
      (handlePublishSchedule
        (oncallStoreUpdate
          (handlePublishSchedule (oncallStoreUpdate [] (mkOnCallDraft 100 "a")) "a")
          (mkOnCallDraft 100 "b"))
        "b") = 2 := by
  decide

/-- C1 (amended): `handlePublishSchedule` marks exactly the targeted schedule
as published and never demotes or removes an existing published schedule, so
publishing a draft of a (week-start, type) key that already has a published
schedule leaves at least two published schedules with that key. -/
theorem publish_retains_existing_published (store : List Schedule) (sid : String)
    (W : Int) (t : String)
    (hd : ∃ s ∈ store, s.id = sid ∧ s.status = "draft" ∧ s.type = t ∧ s.weekStart = W)
    (hp : ∃ u ∈ store, u.status = "published" ∧ u.type = t ∧ u.weekStart = W) :
    2 ≤ countPublished W t (handlePublishSchedule store sid) := by
  obtain ⟨s, hs, hsid, hsd, hst, hsw⟩ := hd
  obtain ⟨u, hu, hup, hut, huw⟩ := hp
  unfold countPublished handlePublishSchedule
  rw [← List.countP_eq_length_filter, List.countP_map]
  refine countP_two_of_mem _ hs hu ?_ ?_ ?_
  · intro he
    rw [he, hup] at hsd
    exact absurd hsd (by decide)
  · simp only [Function.comp_apply, hsid, if_pos rfl]
    simp [hst, hsw]
  · by_cases h : u.id = sid <;> simp [Function.comp_apply, h, hup, hut, huw]

/-- C1 witness: a concrete instantiation of
`publish_retains_existing_published`. -/
theorem publish_retains_existing_published_witness :
    2 ≤ countPublished 100 "oncall"
        (handlePublishSchedule [mkOnCallDraft 100 "b", exPublishedOnCall 100 []] "b") := by
  exact publish_retains_existing_published _ "b" 100 "oncall"
    ⟨mkOnCallDraft 100 "b", by decide, by decide, by decide, by decide, by decide⟩
    ⟨exPublishedOnCall 100 [], by decide, by decide, by decide, by decide⟩

/-! ## C4: regeneration frame effect -/

/-- C4, counterexample: the on-call regeneration filter drops every on-call
draft regardless of week-start, so generating for week 200 discards the
existing week-100 draft, which the claim says must remain unchanged. -/
theorem regenerate_discards_foreign_week_draft :
    mkOnCallDraft 100 "a" ∉
      oncallStoreUpdate [mkOnCallDraft 100 "a"] (mkOnCallDraft 200 "b") := by
  decide

/-- C4 (amended): a generation request for a schedule type discards all prior
draft schedules of that type regardless of week-start, while published
schedules and schedules of other types survive and the new drafts are
installed; this holds for both the Echo Lab and the on-call store update. -/
theorem generate_replaces_drafts_of_type (store newDrafts : List Schedule)
    (newDraft : Schedule) :
    (∀ s ∈ store, s.status = "published" → s ∈ echoStoreUpdate store newDrafts) ∧
    (∀ s ∈ store, s.type ≠ "echolab" → s ∈ echoStoreUpdate store newDrafts) ∧
    (∀ s ∈ store, s.status = "draft" → s.type = "echolab" → s ∉ newDrafts →
      s ∉ echoStoreUpdate store newDrafts) ∧
    (∀ d ∈ newDrafts, d ∈ echoStoreUpdate store newDrafts) ∧
    (∀ s ∈ store, s.status = "published" → s ∈ oncallStoreUpdate store newDraft) ∧
    (∀ s ∈ store, s.type ≠ "oncall" → s ∈ oncallStoreUpdate store newDraft) ∧
    (∀ s ∈ store, s.status = "draft" → s.type = "oncall" → s ≠ newDraft →
      s ∉ oncallStoreUpdate store newDraft) ∧
    newDraft ∈ oncallStoreUpdate store newDraft := by
  refine ⟨?_, ?_, ?_, ?_, ?_, ?_, ?_, ?_⟩
  · intro s hs hpub
    apply List.mem_append_left
    refine List.mem_filter.mpr ⟨hs, ?_⟩
    simp [hpub]
  · intro s hs htype
    apply List.mem_append_left
    refine List.mem_filter.mpr ⟨hs, ?_⟩
    simp [htype]
  · intro s _hs hdraft htype hnew hmem
    rcases List.mem_append.mp hmem with hf | hn
    · have := (List.mem_filter.mp hf).2
      simp [hdraft, htype] at this
    · exact hnew hn
  · intro d hd
    exact List.mem_append_right _ hd
  · intro s hs hpub
    apply List.mem_append_left
    refine List.mem_filter.mpr ⟨hs, ?_⟩
    simp [hpub]
  · intro s hs htype
    apply List.mem_append_left
    refine List.mem_filter.mpr ⟨hs, ?_⟩
    simp [htype]
  · intro s _hs hdraft htype hnew hmem
    rcases List.mem_append.mp hmem with hf | hn
    · have := (List.mem_filter.mp hf).2
      simp [hdraft, htype] at this
    · exact hnew (List.mem_singleton.mp hn)
  · exact List.mem_append_right _ (List.mem_singleton.mpr rfl)

/-- C4 witness: a concrete instantiation of
`generate_replaces_drafts_of_type`: a published on-call schedule of week 100
survives regeneration of both kinds, while an on-call draft of week 100 is
discarded by on-call regeneration. -/
theorem generate_replaces_drafts_of_type_witness :
    exPublishedOnCall 100 [] ∈
      oncallStoreUpdate [exPublishedOnCall 100 [], mkOnCallDraft 100 "a"]
        (mkOnCallDraft 200 "b") ∧
    mkOnCallDraft 100 "a" ∉
      oncallStoreUpdate [exPublishedOnCall 100 [], mkOnCallDraft 100 "a"]
        (mkOnCallDraft 200 "b") := by
  constructor
  · exact (generate_replaces_drafts_of_type
      [exPublishedOnCall 100 [], mkOnCallDraft 100 "a"] [] (mkOnCallDraft 200 "b")).2.2.2.2.1
      (exPublishedOnCall 100 []) (by decide) (by decide)
  · exact (generate_replaces_drafts_of_type
      [exPublishedOnCall 100 [], mkOnCallDraft 100 "a"] [] (mkOnCallDraft 200 "b")).2.2.2.2.2.2.1
      (mkOnCallDraft 100 "a") (by decide) (by decide) (by decide) (by decide)

/-! ## C3: Echo Lab dependency gate -/

/-- C3, counterexample: the gate is satisfied (a published on-call schedule
for week 100 exists) but generation still fails, because the JDCH location
record is missing; the claim that generation succeeds once a published
on-call schedule exists is therefore false as stated. -/
theorem echolab_refused_without_jdch_location :
    isOnCallSchedulePublished [exPublishedOnCall 100 []] 100 = true ∧
    handleGenerateEchoLab [exPublishedOnCall 100 []] [] [exAlice] 100
      (fun _ _ _ => 0) (fun _ => "d") = Except.error "JDCH location not found" := by
  exact ⟨by decide, rfl⟩

/-- C3 (amended): Echo Lab generation for week `W` is refused with an
explicit error and produces zero drafts whenever no published on-call
schedule with week-start `W` exists; when one exists it still fails (with a
configuration error) if the JDCH location record is missing, and succeeds
with five Echo Lab drafts for week `W` once both the published on-call
schedule and the JDCH location are present. -/
theorem echolab_dependency_gate (store : List Schedule) (locations : List Location)
    (employees : List Employee) (W : Int) (rng : Nat → String → String → Nat)
    (mkId : Nat → String) :
    (isOnCallSchedulePublished store W = false →
      handleGenerateEchoLab store locations employees W rng mkId =
        Except.error onCallMissingMsg) ∧
    (isOnCallSchedulePublished store W = true →
      locations.find? (fun loc => loc.name = "JDCH") = none →
      handleGenerateEchoLab store locations employees W rng mkId =
        Except.error "JDCH location not found") ∧
    (∀ jdch, isOnCallSchedulePublished store W = true →
      locations.find? (fun loc => loc.name = "JDCH") = some jdch →
      ∃ drafts, handleGenerateEchoLab store locations employees W rng mkId =
          Except.ok drafts ∧ drafts.length = 5 ∧
          ∀ d ∈ drafts, d.status = "draft" ∧ d.type = "echolab" ∧ d.weekStart = W) := by
  refine ⟨?_, ?_, ?_⟩
  · intro h
    simp [handleGenerateEchoLab, canGenerateEchoLab, h]
  · intro h hfind
    simp [handleGenerateEchoLab, canGenerateEchoLab, h, hfind]
  · intro jdch h hfind
    simp only [handleGenerateEchoLab, canGenerateEchoLab, h, hfind]
    refine ⟨_, rfl, by simp, ?_⟩
    intro d hd
    rcases List.mem_map.mp hd with ⟨i, _hi, rfl⟩
    exact ⟨rfl, rfl, rfl⟩

/-- C3 witness: a concrete instantiation of `echolab_dependency_gate`: with
no published on-call schedule the call errors, and with a published on-call
schedule plus the JDCH location it returns five drafts. -/
theorem echolab_dependency_gate_witness :
    handleGenerateEchoLab [] [exJdchLoc] [exAlice] 100 (fun _ _ _ => 0)
      (fun _ => "d") = Except.error onCallMissingMsg ∧
    ∃ drafts, handleGenerateEchoLab [exPublishedOnCall 100 []] [exJdchLoc] [exAlice]
        100 (fun _ _ _ => 0) (fun _ => "d") = Except.ok drafts ∧ drafts.length = 5 ∧
        ∀ d ∈ drafts, d.status = "draft" ∧ d.type = "echolab" ∧ d.weekStart = 100 := by
  constructor
  · exact (echolab_dependency_gate [] [exJdchLoc] [exAlice] 100 (fun _ _ _ => 0)
      (fun _ => "d")).1 (by decide)
  · exact (echolab_dependency_gate [exPublishedOnCall 100 []] [exJdchLoc] [exAlice]
      100 (fun _ _ _ => 0) (fun _ => "d")).2.2 exJdchLoc (by decide) (by decide)

/-! ## C9: cell editing frame effect -/

theorem getCell_setRowCell_self (g : Grid) (subject day v : String) :
    getCell
      (setKey subject (setKey day v ((lookupKey subject g).getD [])) g)
      subject day = some v := by
  simp [getCell, lookup_setKey_self]

theorem getCell_setRowCell_ne (g : Grid) (subject day v n d : String)
    (h : n ≠ subject ∨ d ≠ day) :
    getCell
      (setKey subject (setKey day v ((lookupKey subject g).getD [])) g)
      n d = getCell g n d := by
  by_cases hn : n = subject
  · subst hn
    rcases h with h | h
    · exact absurd rfl h
    · rw [getCell, lookup_setKey_self]
      cases hlook : lookupKey n g with
      | none =>
        rw [getCell, hlook]
        simp [setKey, lookupKey, List.find?, Ne.symm h]
      | some row => simp [getCell, hlook, lookup_setKey_ne h]
  · rw [getCell, lookup_setKey_ne hn, getCell]

/-- C9: editing one assignment cell (`handleEchoLabAssignment` or
`handleOnCallAssignment`) changes exactly that (subject, day) cell of the
targeted schedule to the given label: every schedule with a different id is
kept as it was, the store length is unchanged, and for the targeted schedule
the id, week-start, type, status and location fields and every other cell are
preserved.  No hypothesis restricts the schedule's status, so the edit is
permitted on drafts and on published schedules alike. -/
theorem edit_cell_frame (store : List Schedule) (sid subject day v : String) :
    ((handleEchoLabAssignment store sid subject day v).length = store.length ∧
     (handleOnCallAssignment store sid subject day v).length = store.length) ∧
    (∀ s ∈ store, s.id ≠ sid →
      s ∈ handleEchoLabAssignment store sid subject day v ∧
      s ∈ handleOnCallAssignment store sid subject day v) ∧
    (∀ s ∈ store, s.id = sid →
      ∃ s' ∈ handleEchoLabAssignment store sid subject day v,
        s'.id = s.id ∧ s'.weekStart = s.weekStart ∧ s'.type = s.type ∧
        s'.status = s.status ∧ s'.locationId = s.locationId ∧
        s'.locationName = s.locationName ∧
        getCell s'.assignments subject day = some v ∧
        ∀ n d, n ≠ subject ∨ d ≠ day →
          getCell s'.assignments n d = getCell s.assignments n d) ∧
    (∀ s ∈ store, s.id = sid →
      ∃ s' ∈ handleOnCallAssignment store sid subject day v,
        s'.id = s.id ∧ s'.weekStart = s.weekStart ∧ s'.type = s.type ∧
        s'.status = s.status ∧ s'.locationId = s.locationId ∧
        s'.locationName = s.locationName ∧
        getCell s'.assignments subject day = some v ∧
        ∀ n d, n ≠ subject ∨ d ≠ day →
          getCell s'.assignments n d = getCell s.assignments n d) := by
  refine ⟨⟨List.length_map _ _, List.length_map _ _⟩, ?_, ?_, ?_⟩
  · intro s hs hid
    constructor
    · have : s = (fun schedule =>
        if schedule.id = sid then
          { schedule with
            assignments :=
              setKey subject
                (setKey day v ((lookupKey subject schedule.assignments).getD []))
                schedule.assignments }
        else schedule) s := by simp [hid]
      rw [handleEchoLabAssignment]
      exact this ▸ List.mem_map_of_mem _ hs
    · have : s = (fun schedule =>
        if schedule.id = sid then
          { schedule with
            assignments :=
              setKey subject
                (setKey day v ((lookupKey subject schedule.assignments).getD []))
                schedule.assignments }
        else schedule) s := by simp [hid]
      rw [handleOnCallAssignment]
      exact this ▸ List.mem_map_of_mem _ hs
  · intro s hs hid
    refine ⟨{ s with
      assignments :=
        setKey subject (setKey day v ((lookupKey subject s.assignments).getD []))
          s.assignments }, ?_, rfl, rfl, rfl, rfl, rfl, rfl,
      getCell_setRowCell_self _ _ _ _, fun n d h => getCell_setRowCell_ne _ _ _ _ _ _ h⟩
    rw [handleEchoLabAssignment]
    have : ({ s with
      assignments :=
        setKey subject (setKey day v ((lookupKey subject s.assignments).getD []))
          s.assignments } : Schedule) = (fun schedule =>
        if schedule.id = sid then
          { schedule with
            assignments :=
              setKey subject
                (setKey day v ((lookupKey subject schedule.assignments).getD []))
                schedule.assignments }
        else schedule) s := by simp [hid]
    exact this ▸ List.mem_map_of_mem _ hs
  · intro s hs hid
    refine ⟨{ s with
      assignments :=
        setKey subject (setKey day v ((lookupKey subject s.assignments).getD []))
          s.assignments }, ?_, rfl, rfl, rfl, rfl, rfl, rfl,
      getCell_setRowCell_self _ _ _ _, fun n d h => getCell_setRowCell_ne _ _ _ _ _ _ h⟩
    rw [handleOnCallAssignment]
    have : ({ s with
      assignments :=
        setKey subject (setKey day v ((lookupKey subject s.assignments).getD []))
          s.assignments } : Schedule) = (fun schedule =>
        if schedule.id = sid then
          { schedule with
            assignments :=
              setKey subject
                (setKey day v ((lookupKey subject schedule.assignments).getD []))
                schedule.assignments }
        else schedule) s := by simp [hid]
    exact this ▸ List.mem_map_of_mem _ hs

/-- C9 witness: a concrete instantiation of `edit_cell_frame` on a one-element
store holding a published on-call schedule. -/
theorem edit_cell_frame_witness :
    ∃ s' ∈ handleOnCallAssignment [exPublishedOnCall 100 [("Monday", "Alice")]]
        "oc1" "JDCH" "Tuesday" "Bob",
      s'.id = (exPublishedOnCall 100 [("Monday", "Alice")]).id ∧
      s'.weekStart = (exPublishedOnCall 100 [("Monday", "Alice")]).weekStart ∧
      s'.type = (exPublishedOnCall 100 [("Monday", "Alice")]).type ∧
      s'.status = (exPublishedOnCall 100 [("Monday", "Alice")]).status ∧
      s'.locationId = (exPublishedOnCall 100 [("Monday", "Alice")]).locationId ∧
      s'.locationName = (exPublishedOnCall 100 [("Monday", "Alice")]).locationName ∧
      getCell s'.assignments "JDCH" "Tuesday" = some "Bob" ∧
      ∀ n d, n ≠ "JDCH" ∨ d ≠ "Tuesday" →
        getCell s'.assignments n d =
          getCell (exPublishedOnCall 100 [("Monday", "Alice")]).assignments n d := by
  exact (edit_cell_frame [exPublishedOnCall 100 [("Monday", "Alice")]] "oc1" "JDCH"
    "Tuesday" "Bob").2.2.2 (exPublishedOnCall 100 [("Monday", "Alice")])
    (by decide) (by decide)

/-! ## Echo Lab grid lemmas -/

theorem lookup_foldl_setKey_of_not_mem {α β : Type} (key : α → String) (val : α → β)
    (n : String) :
    ∀ (l : List α) (g0 : List (String × β)), (∀ x ∈ l, key x ≠ n) →
      lookupKey n (l.foldl (fun g x => setKey (key x) (val x) g) g0) = lookupKey n g0
  | [], _, _ => rfl
  | x :: xs, g0, h => by
    simp only [List.foldl_cons]
    rw [lookup_foldl_setKey_of_not_mem key val n xs _
      (fun y hy => h y (List.mem_cons_of_mem _ hy))]
    exact lookup_setKey_ne (Ne.symm (h x (List.mem_cons_self _ _))) _ _

theorem lookup_foldl_setKey_of_nodup {α β : Type} (key : α → String) (val : α → β) :
    ∀ (l : List α) (g0 : List (String × β)), (l.map key).Nodup → ∀ x ∈ l,
      lookupKey (key x) (l.foldl (fun g a => setKey (key a) (val a) g) g0) =
        some (val x)
  | [], _, _, x, hx => absurd hx (List.not_mem_nil x)
  | a :: as, g0, hnd, x, hx => by
    simp only [List.foldl_cons]
    rcases List.mem_cons.mp hx with rfl | hx'
    · have hhead : key x ∉ as.map key := (List.nodup_cons.mp (by simpa using hnd)).1
      have hna : ∀ y ∈ as, key y ≠ key x :=
        fun y hy he => hhead (he ▸ List.mem_map_of_mem key hy)
      rw [lookup_foldl_setKey_of_not_mem key val (key x) as _ hna]
      exact lookup_setKey_self _ _ _
    · exact lookup_foldl_setKey_of_nodup key val as _
        (List.nodup_cons.mp (by simpa using hnd)).2 x hx'

theorem buildEchoRow_lookup (employee : Employee) (W : Int) (r : String → Nat)
    (dayIdx : Nat) (day : String) (hmem : (dayIdx, day) ∈ allDays.enum) :
    lookupKey day (buildEchoRow employee W r) =
      some (echoCellAssign employee day (W + (dayIdx : Int)) (r day)) := by
  have hnd : (allDays.enum.map (fun p => p.2)).Nodup := by decide
  exact lookup_foldl_setKey_of_nodup (fun p => p.2)
    (fun p => echoCellAssign employee p.2 (W + (p.1 : Int)) (r p.2))
    allDays.enum [] hnd (dayIdx, day) hmem

theorem buildEchoAssignments_lookup (staff : List Employee) (W : Int)
    (rng : String → String → Nat) (hnd : (staff.map (fun e => e.name)).Nodup)
    (e : Employee) (he : e ∈ staff) :
    lookupKey e.name (buildEchoAssignments staff W rng) =
      some (buildEchoRow e W (rng e.name)) :=
  lookup_foldl_setKey_of_nodup (fun emp => emp.name)
    (fun emp => buildEchoRow emp W (rng emp.name)) staff [] hnd e he

theorem lookupKey_cons {α : Type} (k : String) (q : String × α) (l : List (String × α)) :
    lookupKey k (q :: l) = if q.1 = k then some q.2 else lookupKey k l := by
  by_cases h : q.1 = k <;> simp [lookupKey, List.find?, h]

theorem updateCell_cons (p : String × List (String × String))
    (ps : Grid) (n d v : String) :
    updateCell (p :: ps) n d v =
      (if p.1 = n then (p.1, setKey d v p.2) else p) :: updateCell ps n d v := rfl

theorem lookup_updateCell_self (g : Grid) (n d v : String) :
    lookupKey n (updateCell g n d v) = (lookupKey n g).map (setKey d v) := by
  induction g with
  | nil => rfl
  | cons p ps ih =>
    rw [updateCell_cons]
    by_cases hp : p.1 = n
    · simp [lookupKey_cons, hp]
    · simp [lookupKey_cons, hp, ih]

theorem lookup_updateCell_ne (g : Grid) (n d v n' : String) (h : n' ≠ n) :
    lookupKey n' (updateCell g n d v) = lookupKey n' g := by
  induction g with
  | nil => rfl
  | cons p ps ih =>
    rw [updateCell_cons]
    by_cases hp : p.1 = n
    · have hne : p.1 ≠ n' := fun he => h (he ▸ hp)
      rw [if_pos hp]
      simp [lookupKey_cons, hne, ih]
    · rw [if_neg hp]
      simp [lookupKey_cons, ih]

theorem getCell_jdchStep_preserved (s : Schedule) (g : Grid) (day nm tgtDay : String)
    (h : getCell s.assignments "JDCH" tgtDay ≠ some nm) :
    getCell (jdchStep s g day) nm tgtDay = getCell g nm tgtDay := by
  rcases hc : getCell s.assignments "JDCH" day with _ | target
  · simp [jdchStep, hc]
  · simp only [jdchStep, hc]
    by_cases hcond : (decide (target ≠ "") && (lookupKey target g).isSome) = true
    · rw [if_pos hcond]
      by_cases htn : target = nm
      · subst htn
        have hdt : day ≠ tgtDay := fun hd => h (hd ▸ hc)
        rw [getCell, lookup_updateCell_self]
        cases hlook : lookupKey target g with
        | none => simp [getCell, hlook]
        | some row => simp [getCell, hlook, lookup_setKey_ne (Ne.symm hdt)]
      · rw [getCell, lookup_updateCell_ne g target day _ nm (fun he => htn he.symm),
          getCell]
    · rw [if_neg hcond]

theorem getCell_applyJdchRule_preserved (g : Grid) (oc : Option Schedule)
    (nm tgtDay : String)
    (h : ∀ s, oc = some s → getCell s.assignments "JDCH" tgtDay ≠ some nm) :
    getCell (applyJdchRule g oc) nm tgtDay = getCell g nm tgtDay := by
  cases oc with
  | none => rfl
  | some s =>
    have hs := h s rfl
    show getCell (allDays.foldl (jdchStep s) g) nm tgtDay = getCell g nm tgtDay
    generalize allDays = days
    induction days generalizing g with
    | nil => rfl
    | cons d ds ih =>
      rw [List.foldl_cons, ih (jdchStep s g d), getCell_jdchStep_preserved s g d nm tgtDay hs]

/-- The cell an Echo Lab draft holds for a staff employee and a weekday, when
the JDCH on-call rule does not target that employee on that day: the value of
`echoCellAssign` for the draft's random stream. -/
theorem echoDraft_cell_eq (store : List Schedule) (locations : List Location)
    (employees : List Employee) (W : Int) (rng : Nat → String → String → Nat)
    (mkId : Nat → String) (drafts : List Schedule) (e : Employee)
    (dayIdx : Nat) (day : String)
    (hgen : handleGenerateEchoLab store locations employees W rng mkId =
      Except.ok drafts)
    (he : e ∈ employees) (hrole : e.role = "staff")
    (hnd : ((employees.filter (fun emp => emp.role = "staff")).map
      (fun emp => emp.name)).Nodup)
    (hmem : (dayIdx, day) ∈ allDays.enum)
    (hnojdch : ∀ s, findOnCallSchedule store W = some s →
      getCell s.assignments "JDCH" day ≠ some e.name) :
    ∀ d ∈ drafts, ∃ i, getCell d.assignments e.name day =
      some (echoCellAssign e day (W + (dayIdx : Int)) (rng i e.name day)) := by
  unfold handleGenerateEchoLab at hgen
  by_cases hcan : canGenerateEchoLab store W = false
  · rw [if_pos hcan] at hgen
    cases hgen
  · rw [if_neg hcan] at hgen
    cases hfind : locations.find? (fun loc => loc.name = "JDCH") with
    | none =>
      rw [hfind] at hgen
      cases hgen
    | some jdch =>
      rw [hfind] at hgen
      injection hgen with hdrafts
      subst hdrafts
      intro d hd
      rcases List.mem_map.mp hd with ⟨i, _hi, rfl⟩
      refine ⟨i, ?_⟩
      rw [getCell_applyJdchRule_preserved _ _ _ _ hnojdch]
      have hestaff : e ∈ employees.filter (fun emp => emp.role = "staff") :=
        List.mem_filter.mpr ⟨he, by simp [hrole]⟩
      rw [getCell, buildEchoAssignments_lookup _ _ _ hnd e hestaff]
      simp only [Option.some_bind]
      exact buildEchoRow_lookup e W (rng i e.name) dayIdx day hmem

/-! ## C2: leave precedence vs the JDCH cross-schedule rule -/

/-- C2, counterexample: Alice has approved leave covering day 100 (the Monday
of the generated week) and is also the JDCH on-call employee for Monday; the
generated draft shows `OR/Inpat.`, not `PTO`, because the cross-schedule rule
runs after the leave check and overwrites the PTO cell. -/
theorem jdch_rule_overwrites_pto :
    hasApprovedTimeOff exAlice 100 = true ∧
    ((handleGenerateEchoLab [exPublishedOnCall 100 [("Monday", "Alice")]] [exJdchLoc]
        [exAlice] 100 (fun _ _ _ => 0) (fun _ => "d")).toOption.bind
      (fun ds => ds.head?.bind (fun d => getCell d.assignments "Alice" "Monday"))) =
      some "OR/Inpat." := by
  decide

/-- C2 (amended): for an employee with approved time off covering a day of
the target week, every generated Echo Lab draft holds `PTO` in that
(employee, day) cell, provided the published on-call schedule found for the
week does not name that employee as the JDCH on-call for that day; when it
does, the cross-schedule rule overwrites the cell (including a PTO cell) with
`OR/Inpat.`. -/
theorem leave_forces_pto_unless_jdch_override (store : List Schedule)
    (locations : List Location) (employees : List Employee) (W : Int)
    (rng : Nat → String → String → Nat) (mkId : Nat → String)
    (drafts : List Schedule) (e : Employee) (dayIdx : Nat) (day : String)
    (hgen : handleGenerateEchoLab store locations employees W rng mkId =
      Except.ok drafts)
    (he : e ∈ employees) (hrole : e.role = "staff")
    (hnd : ((employees.filter (fun emp => emp.role = "staff")).map
      (fun emp => emp.name)).Nodup)
    (hmem : (dayIdx, day) ∈ allDays.enum)
    (hpto : hasApprovedTimeOff e (W + (dayIdx : Int)) = true)
    (hnojdch : ∀ s, findOnCallSchedule store W = some s →
      getCell s.assignments "JDCH" day ≠ some e.name) :
    ∀ d ∈ drafts, getCell d.assignments e.name day = some "PTO" := by
  intro d hd
  rcases echoDraft_cell_eq store locations employees W rng mkId drafts e dayIdx day
    hgen he hrole hnd hmem hnojdch d hd with ⟨i, hcell⟩
  rw [hcell]
  simp [echoCellAssign, hpto]

/-- C2 witness: a concrete instantiation of
`leave_forces_pto_unless_jdch_override`: Alice is on leave on Monday and the
published on-call schedule's JDCH row is empty, so her Monday cell is PTO in
every draft. -/
theorem leave_forces_pto_unless_jdch_override_witness :
    ∃ drafts, handleGenerateEchoLab [exPublishedOnCall 100 []] [exJdchLoc] [exAlice]
        100 (fun _ _ _ => 0) (fun _ => "d") = Except.ok drafts ∧
      ∀ d ∈ drafts, getCell d.assignments "Alice" "Monday" = some "PTO" := by
  refine ⟨_, rfl, ?_⟩
  have h := leave_forces_pto_unless_jdch_override [exPublishedOnCall 100 []]
    [exJdchLoc] [exAlice] 100 (fun _ _ _ => 0) (fun _ => "d") _ exAlice 0 "Monday"
    rfl (by decide) (by decide) (by decide) (by decide) (by decide) ?_
  · exact h
  · intro s hs
    rw [show findOnCallSchedule [exPublishedOnCall 100 []] 100 =
      some (exPublishedOnCall 100 []) from rfl] at hs
    injection hs with hs
    subst hs
    decide

/-! ## C6: Martha's forced TX-Inpat. cells -/

/-- C6, counterexample: Martha has no approved leave, but the published
on-call schedule names her as the JDCH on-call for Tuesday, so the generated
draft holds `OR/Inpat.` in her Tuesday cell instead of the pinned
`TX-Inpat.`; the output is therefore not independent of the published
on-call schedule's content. -/
theorem martha_rule_overridden_by_jdch :
    hasApprovedTimeOff exMartha 101 = false ∧
    ((handleGenerateEchoLab [exPublishedOnCall 100 [("Tuesday", "Martha")]] [exJdchLoc]
        [exMartha] 100 (fun _ _ _ => 0) (fun _ => "d")).toOption.bind
      (fun ds => ds.head?.bind (fun d => getCell d.assignments "Martha" "Tuesday"))) =
      some "OR/Inpat." := by
  decide

/-- C6 (amended): a staff employee named Martha with no approved leave on the
Tuesday and Friday of the target week receives `TX-Inpat.` in her Tuesday and
Friday cells of every generated Echo Lab draft, independent of the random
draws, provided the published on-call schedule found for the week does not
name Martha as the JDCH on-call on those days; when it does, the
cross-schedule rule overwrites the pinned cell with `OR/Inpat.`. -/
theorem martha_pinned_txinpat (store : List Schedule) (locations : List Location)
    (employees : List Employee) (W : Int) (rng : Nat → String → String → Nat)
    (mkId : Nat → String) (drafts : List Schedule) (e : Employee)
    (hgen : handleGenerateEchoLab store locations employees W rng mkId =
      Except.ok drafts)
    (he : e ∈ employees) (hrole : e.role = "staff") (hname : e.name = "Martha")
    (hnd : ((employees.filter (fun emp => emp.role = "staff")).map
      (fun emp => emp.name)).Nodup)
    (hTue : hasApprovedTimeOff e (W + 1) = false)
    (hFri : hasApprovedTimeOff e (W + 4) = false)
    (hnojdchT : ∀ s, findOnCallSchedule store W = some s →
      getCell s.assignments "JDCH" "Tuesday" ≠ some e.name)
    (hnojdchF : ∀ s, findOnCallSchedule store W = some s →
      getCell s.assignments "JDCH" "Friday" ≠ some e.name) :
    ∀ d ∈ drafts, getCell d.assignments e.name "Tuesday" = some "TX-Inpat." ∧
      getCell d.assignments e.name "Friday" = some "TX-Inpat." := by
  intro d hd
  constructor
  · rcases echoDraft_cell_eq store locations employees W rng mkId drafts e 1 "Tuesday"
      hgen he hrole hnd (by decide) hnojdchT d hd with ⟨i, hcell⟩
    rw [hcell]
    simp [echoCellAssign, hname, hTue]
  · rcases echoDraft_cell_eq store locations employees W rng mkId drafts e 4 "Friday"
      hgen he hrole hnd (by decide) hnojdchF d hd with ⟨i, hcell⟩
    rw [hcell]
    simp [echoCellAssign, hname, hFri]

/-- C6 witness: a concrete instantiation of `martha_pinned_txinpat` with an
empty JDCH on-call row. -/
theorem martha_pinned_txinpat_witness :
    ∃ drafts, handleGenerateEchoLab [exPublishedOnCall 100 []] [exJdchLoc] [exMartha]
        100 (fun _ _ _ => 0) (fun _ => "d") = Except.ok drafts ∧
      ∀ d ∈ drafts, getCell d.assignments "Martha" "Tuesday" = some "TX-Inpat." ∧
        getCell d.assignments "Martha" "Friday" = some "TX-Inpat." := by
  refine ⟨_, rfl, ?_⟩
  have hnoT : ∀ s, findOnCallSchedule [exPublishedOnCall 100 []] 100 = some s →
      getCell s.assignments "JDCH" "Tuesday" ≠ some exMartha.name := by
    intro s hs
    rw [show findOnCallSchedule [exPublishedOnCall 100 []] 100 =
      some (exPublishedOnCall 100 []) from rfl] at hs
    injection hs with hs
    subst hs
    decide
  have hnoF : ∀ s, findOnCallSchedule [exPublishedOnCall 100 []] 100 = some s →
      getCell s.assignments "JDCH" "Friday" ≠ some exMartha.name := by
    intro s hs
    rw [show findOnCallSchedule [exPublishedOnCall 100 []] 100 =
      some (exPublishedOnCall 100 []) from rfl] at hs
    injection hs with hs
    subst hs
    decide
  have h := martha_pinned_txinpat [exPublishedOnCall 100 []] [exJdchLoc] [exMartha]
    100 (fun _ _ _ => 0) (fun _ => "d") _ exMartha rfl (by decide) (by decide)
    (by decide) (by decide) (by decide) (by decide) hnoT hnoF
  simpa [exMartha] using h

/-! ## C7: availability containment -/

theorem lookup_foldl_setKey_mem {α β : Type} (key : α → String) (val : α → β) :
    ∀ (l : List α) (g0 : List (String × β)) (n : String) (r : β),
      lookupKey n (l.foldl (fun g a => setKey (key a) (val a) g) g0) = some r →
      (∃ a ∈ l, key a = n ∧ r = val a) ∨ lookupKey n g0 = some r
  | [], _, _, _, h => Or.inr h
  | a :: as, g0, n, r, h => by
    simp only [List.foldl_cons] at h
    rcases lookup_foldl_setKey_mem key val as _ n r h with hml | hg
    · rcases hml with ⟨b, hb, hkey, hval⟩
      exact Or.inl ⟨b, List.mem_cons_of_mem _ hb, hkey, hval⟩
    · by_cases hk : key a = n
      · subst hk
        rw [lookup_setKey_self] at hg
        injection hg with hg
        exact Or.inl ⟨a, List.mem_cons_self _ _, rfl, hg.symm⟩
      · rw [lookup_setKey_ne (fun he => hk he.symm)] at hg
        exact Or.inr hg

theorem genRow_cell_available (employee : GenEmployee) (weekStart : Int)
    (rng : String → Nat → Nat) :
    ∀ (l : List Nat) (row0 : List (String × String)) (day v : String),
      lookupKey day
        (l.foldl (fun row (i : Nat) =>
          let date := weekStart + (i : Int)
          let dayOfWeek := dayOfWeekName date
          if employee.days.contains dayOfWeek then
            let possibleAssignments := ASSIGNMENT_POOL.filter (fun a => a ≠ "")
            setKey dayOfWeek
              (possibleAssignments.getD
                (rng employee.name i % possibleAssignments.length) "") row
          else setKey dayOfWeek "" row) row0) = some v →
      v ≠ "" →
      employee.days.contains day = true ∨ lookupKey day row0 = some v
  | [], _, _, _, h, _ => Or.inr h
  | i :: is, row0, day, v, h, hv => by
    simp only [List.foldl_cons] at h
    rcases genRow_cell_available employee weekStart rng is _ day v h hv with hav | hrow
    · exact Or.inl hav
    · by_cases hc : employee.days.contains (dayOfWeekName (weekStart + (i : Int))) = true
      · rw [if_pos hc] at hrow
        by_cases hk : dayOfWeekName (weekStart + (i : Int)) = day
        · exact Or.inl (hk ▸ hc)
        · rw [lookup_setKey_ne (fun he => hk he.symm)] at hrow
          exact Or.inr hrow
      · rw [if_neg hc] at hrow
        by_cases hk : dayOfWeekName (weekStart + (i : Int)) = day
        · subst hk
          rw [lookup_setKey_self] at hrow
          injection hrow with hrow
          exact absurd hrow.symm hv
        · rw [lookup_setKey_ne (fun he => hk he.symm)] at hrow
          exact Or.inr hrow

/-- C7, counterexample: the Echo Lab generator in `Schedules.tsx` never
consults employee availability: Martha's available-weekday set is empty, yet
her generated Tuesday cell holds the non-empty, non-PTO label `TX-Inpat.`. -/
theorem echolab_ignores_availability :
    ("Tuesday" ∈ exMartha.availabilityDays → False) ∧
    ((handleGenerateEchoLab [exPublishedOnCall 100 []] [exJdchLoc] [exMartha] 100
        (fun _ _ _ => 0) (fun _ => "d")).toOption.bind
      (fun ds => ds.head?.bind (fun d => getCell d.assignments "Martha" "Tuesday"))) =
      some "TX-Inpat." := by
  exact ⟨by decide, by decide⟩

/-- C7 (amended): eligibility containment holds for
`ScheduleGenerator.generateSchedule` — every non-empty cell of its output
grid belongs to an input employee with that name whose available-weekday set
contains the cell's weekday — but not for the Echo Lab generator of
`Schedules.tsx`, which ignores availability entirely. -/
theorem generator_cells_respect_availability (employees : List GenEmployee)
    (locationId locationName : String) (W : Int) (rng : String → Nat → Nat)
    (mkId : String) (name day v : String)
    (hcell : getCell (generateSchedule employees locationId locationName W rng
      mkId).assignments name day = some v)
    (hv : v ≠ "") :
    ∃ emp ∈ employees, emp.name = name ∧ emp.days.contains day = true := by
  unfold generateSchedule at hcell
  rw [getCell] at hcell
  cases hrow : lookupKey name (employees.foldl (fun g employee =>
      setKey employee.name
        ((List.range 7).foldl (fun row (i : Nat) =>
          let date := W + (i : Int)
          let dayOfWeek := dayOfWeekName date
          if employee.days.contains dayOfWeek then
            let possibleAssignments := ASSIGNMENT_POOL.filter (fun a => a ≠ "")
            setKey dayOfWeek
              (possibleAssignments.getD
                (rng employee.name i % possibleAssignments.length) "") row
          else setKey dayOfWeek "" row) [])
        g) []) with
  | none =>
    rw [hrow] at hcell
    cases hcell
  | some row =>
    rw [hrow] at hcell
    simp only [Option.some_bind] at hcell
    rcases lookup_foldl_setKey_mem (fun employee => employee.name)
      (fun employee => (List.range 7).foldl (fun row (i : Nat) =>
          let date := W + (i : Int)
          let dayOfWeek := dayOfWeekName date
          if employee.days.contains dayOfWeek then
            let possibleAssignments := ASSIGNMENT_POOL.filter (fun a => a ≠ "")
            setKey dayOfWeek
              (possibleAssignments.getD
                (rng employee.name i % possibleAssignments.length) "") row
          else setKey dayOfWeek "" row) [])
      employees [] name row hrow with hfound | hempty
    · rcases hfound with ⟨emp, hmem, hname, hrval⟩
      subst hrval
      rcases genRow_cell_available emp W rng (List.range 7) [] day v hcell hv with
        hav | hnil
      · exact ⟨emp, hmem, hname, hav⟩
      · cases hnil
    · cases hempty

/-- A generator-shape employee available on Mondays, for the C7 witness. -/
def exGreg : GenEmployee :=
  { id := "g1", name := "Greg", days := ["Monday"], maxHoursPerDay := 8,
    preferredShifts := [] }

/-- C7 witness: a concrete instantiation of
`generator_cells_respect_availability`: day 4 is a Monday, Greg is available
on Mondays, and his generated Monday cell is non-empty, so the theorem yields
an employee witness. -/
theorem generator_cells_respect_availability_witness :
    ∃ emp ∈ [exGreg], emp.name = "Greg" ∧ emp.days.contains "Monday" = true := by
  exact generator_cells_respect_availability [exGreg] "L" "Loc" 4 (fun _ _ => 0)
    "id" "Greg" "Monday" "Inpatients" (by decide) (by decide)

/-! ## C5: no spontaneous PTO from random draws -/

theorem getD_mem_or {α : Type} (l : List α) (k : Nat) (d : α) :
    l.getD k d ∈ l ∨ l.getD k d = d := by
  unfold List.getD
  cases h : l.get? k with
  | none => exact Or.inr rfl
  | some x => exact Or.inl (by simpa using List.get?_mem h)

/-- C5, counterexample: with random index 7, Emilio (not on leave) receives
`PTO` in his Friday cell of the generated Echo Lab draft, because the Friday
branch filters `THC` (not `PTO`) out of the pool; and
`ScheduleGenerator.generateSchedule` likewise produces `PTO` for an available
employee, because `ASSIGNMENT_POOL` minus the blank label still contains
`PTO`. -/
theorem random_assignment_can_produce_pto :
    hasApprovedTimeOff exEmilio 104 = false ∧
    ((handleGenerateEchoLab [exPublishedOnCall 100 []] [exJdchLoc] [exEmilio] 100
        (fun _ _ _ => 7) (fun _ => "d")).toOption.bind
      (fun ds => ds.head?.bind (fun d => getCell d.assignments "Emilio" "Friday"))) =
      some "PTO" ∧
    getCell (generateSchedule [exGreg] "L" "Loc" 4 (fun _ _ => 7) "id").assignments
      "Greg" "Monday" = some "PTO" := by
  exact ⟨by decide, by decide, by decide⟩

/-- C5 (amended): in the Echo Lab cell logic, the Martha branch and the
default branch draw from the vocabulary minus `PTO`, so no cell outside the
Emilio-Friday branch is spontaneously `PTO`; but the Emilio-Friday branch
draws from the vocabulary minus `THC` and
`ScheduleGenerator.generateSchedule` draws from `ASSIGNMENT_POOL` minus the
blank label, both of which contain `PTO` and can produce it for an employee
not on leave. -/
theorem no_spontaneous_pto_outside_emilio_friday :
    (∀ (e : Employee) (day : String) (date : Int) (r : Nat),
      hasApprovedTimeOff e date = false → (e.name ≠ "Emilio" ∨ day ≠ "Friday") →
      echoCellAssign e day date r ≠ "PTO") ∧
    echoCellAssign exEmilio "Friday" 104 7 = "PTO" ∧
    getCell (generateSchedule [exGreg] "L" "Loc" 4 (fun _ _ => 7) "id").assignments
      "Greg" "Monday" = some "PTO" := by
  refine ⟨?_, by decide, by decide⟩
  intro e day date r hpto hnot
  have hworkmem : ∀ k : Nat,
      (assignmentOptions.filter (fun opt => opt ≠ "PTO")).getD k "" ≠ "PTO" := by
    intro k
    rcases getD_mem_or (assignmentOptions.filter (fun opt => opt ≠ "PTO")) k ""
      with hmem | hd
    · intro he
      rw [he] at hmem
      exact absurd hmem (by decide)
    · rw [hd]
      decide
  unfold echoCellAssign
  rw [if_neg (by simp [hpto])]
  split_ifs with h1 h2 h3 h4
  · decide
  · exact hworkmem _
  · decide
  · exfalso
    simp only [Bool.and_eq_true, decide_eq_true_eq] at h4
    rcases hnot with hn | hn
    · exact hn h4.2
    · exact hn h4.1
  · exact hworkmem _

/-- C5 witness: a concrete instantiation of the universally quantified part
of `no_spontaneous_pto_outside_emilio_friday`. -/
theorem no_spontaneous_pto_outside_emilio_friday_witness :
    echoCellAssign exMartha "Monday" 0 0 ≠ "PTO" := by
  exact no_spontaneous_pto_outside_emilio_friday.1 exMartha "Monday" 0 0
    (by decide) (Or.inl (by decide))

/-! ## C8 and C10: the candidate scorer -/

/-- Total reading of the previous-week check, used to state the scoring
specification: false when no previous-week schedule or entry exists. -/
def specHadLastWeek (prev : Option GenSchedule) (name : String) (date : Int)
    (shiftType : String) : Bool :=
  match prev with
  | none => false
  | some p =>
    match lookupKey (dayOfWeekName (date - 7)) p.shifts with
    | some ds =>
      match dayShiftsGet ds shiftType with
      | some l => l.contains name
      | none => false
    | none => false

/-- The score formula exactly as the specification states it: 3 if the
employee did not hold the same slot type on the same weekday of the previous
published week, plus (5 − slots assigned this run) × 2, plus 2 if the hours
assigned that day are below the employee's daily maximum, plus 1 if the slot
type is preferred. -/
def claimScore (prev : Option GenSchedule) (e : GenEmployee) (date : Int)
    (shiftType : String) (currentShifts : List GenShift) : Int :=
  (if specHadLastWeek prev e.name date shiftType then 0 else 3) +
    (5 - ((currentShifts.filter (fun s => s.employeeId = e.id)).length : Int)) * 2 +
    (if getEmployeeHoursForDay e date currentShifts < e.maxHoursPerDay then 2 else 0) +
    (if e.preferredShifts.contains shiftType then 1 else 0)

/-- The first element of a list attaining the maximal value of `f`: the head
of a stable descending sort. -/
def firstMaxBy {α : Type} (f : α → Int) (l : List α) : Option α :=
  l.find? (fun x => l.all (fun y => f y ≤ f x))

/-- The precondition under which the scorer cannot throw: either no
previous-week schedule was supplied, or its shifts map has the queried
weekday entry with the queried shift-type array present. -/
def prevWeekReady (prev : Option GenSchedule) (date : Int) (shiftType : String) : Prop :=
  ∀ p, prev = some p →
    ∃ ds, lookupKey (dayOfWeekName (date - 7)) p.shifts = some ds ∧
      (dayShiftsGet ds shiftType).isSome = true

theorem hadShiftLastWeek_ok_of_ready {prev : Option GenSchedule} {date : Int}
    {shiftType : String} (hready : prevWeekReady prev date shiftType)
    (e : GenEmployee) :
    hadShiftLastWeek prev e date shiftType =
      Except.ok (specHadLastWeek prev e.name date shiftType) := by
  cases prev with
  | none => rfl
  | some p =>
    obtain ⟨ds, hds, hget⟩ := hready p rfl
    cases hg : dayShiftsGet ds shiftType with
    | none => rw [hg] at hget; cases hget
    | some l => simp [hadShiftLastWeek, specHadLastWeek, hds, hg]

theorem scoreEmployee_ok_of_ready {prev : Option GenSchedule} {date : Int}
    {shiftType : String} (hready : prevWeekReady prev date shiftType)
    (e : GenEmployee) (currentShifts : List GenShift) :
    scoreEmployee prev e date shiftType currentShifts =
      Except.ok (claimScore prev e date shiftType currentShifts) := by
  rw [scoreEmployee, hadShiftLastWeek_ok_of_ready hready]
  simp only [claimScore, getEmployeeShiftCount]
  by_cases hh : getEmployeeHoursForDay e date currentShifts < e.maxHoursPerDay <;>
    by_cases hp : shiftType ∈ e.preferredShifts <;>
      simp [hh, hp]

theorem mapExcept_ok {α β ε : Type} (f : α → Except ε β) (g : α → β) :
    ∀ (l : List α), (∀ x ∈ l, f x = Except.ok (g x)) →
      mapExcept f l = Except.ok (l.map g)
  | [], _ => rfl
  | x :: xs, h => by
    rw [mapExcept, h x (List.mem_cons_self _ _),
      mapExcept_ok f g xs (fun y hy => h y (List.mem_cons_of_mem _ hy))]
    rfl

theorem mapExcept_error_head {α β ε : Type} (f : α → Except ε β) (x : α)
    (xs : List α) (e : ε) (h : f x = Except.error e) :
    mapExcept f (x :: xs) = Except.error e := by
  rw [mapExcept, h]

theorem length_insertDescBy {α : Type} (f : α → Int) (x : α) :
    ∀ l : List α, (insertDescBy f x l).length = l.length + 1
  | [] => rfl
  | y :: ys => by
    rw [insertDescBy]
    split
    · simp [length_insertDescBy f x ys]
    · simp

theorem length_foldl_insertDescBy {α : Type} (f : α → Int) :
    ∀ (l : List α) (acc : List α),
      (l.foldl (fun a x => insertDescBy f x a) acc).length = acc.length + l.length
  | [], acc => by simp
  | x :: xs, acc => by
    rw [List.foldl_cons, length_foldl_insertDescBy f xs]
    rw [length_insertDescBy]
    simp only [List.length_cons]
    omega

theorem length_sortDescBy {α : Type} (f : α → Int) (l : List α) :
    (sortDescBy f l).length = l.length := by
  rw [sortDescBy, length_foldl_insertDescBy]
  simp

theorem sortDescBy_append_singleton {α : Type} (f : α → Int) (l : List α) (x : α) :
    sortDescBy f (l ++ [x]) = insertDescBy f x (sortDescBy f l) := by
  rw [sortDescBy, List.foldl_append]
  rfl

theorem find?_stronger {α : Type} {p q : α → Bool} :
    ∀ {l : List α} {a : α}, l.find? p = some a →
      (∀ x, q x = true → p x = true) → q a = true → l.find? q = some a
  | [], a, h, _, _ => by cases h
  | x :: xs, a, h, himp, hqa => by
    cases hpx : p x with
    | true =>
      rw [List.find?_cons_of_pos _ hpx] at h
      injection h with h
      subst h
      exact List.find?_cons_of_pos _ hqa
    | false =>
      rw [List.find?_cons_of_neg _ (by simp [hpx])] at h
      have hqx : ¬ q x = true := fun hq => by simp [himp x hq] at hpx
      rw [List.find?_cons_of_neg _ hqx]
      exact find?_stronger h himp hqa

theorem head?_sortDescBy {α : Type} (f : α → Int) (l : List α) :
    (sortDescBy f l).head? = firstMaxBy f l := by
  induction l using List.reverseRecOn with
  | nil => rfl
  | append_singleton l x ih =>
    rw [sortDescBy_append_singleton]
    cases hs : sortDescBy f l with
    | nil =>
      have hl : l = [] := by
        have hlen := length_sortDescBy f l
        rw [hs] at hlen
        exact List.length_eq_zero.mp hlen.symm
      subst hl
      simp [insertDescBy, firstMaxBy, List.find?]
    | cons hd tl =>
      rw [hs] at ih
      rw [firstMaxBy] at ih
      have hfm : l.find? (fun z => l.all (fun y => f y ≤ f z)) = some hd := by
        simpa using ih.symm
      have hmem : hd ∈ l := List.mem_of_find?_eq_some hfm
      have hall : l.all (fun y => decide (f y ≤ f hd)) = true := by
        simpa using List.find?_some hfm
      rw [insertDescBy]
      by_cases hxh : f x ≤ f hd
      · rw [if_pos hxh]
        have hq : ((l ++ [x]).all (fun y => f y ≤ f hd)) = true := by
          rw [List.all_append]
          simp [hall, hxh]
        have hfind : l.find? (fun z => (l ++ [x]).all (fun y => f y ≤ f z)) =
            some hd := by
          refine find?_stronger hfm ?_ hq
          intro z hz
          rw [List.all_append, Bool.and_eq_true] at hz
          exact hz.1
        rw [firstMaxBy, List.find?_append, hfind]
        rfl
      · rw [if_neg hxh]
        have hlt : f hd < f x := lt_of_not_le hxh
        have hnone : l.find? (fun z => (l ++ [x]).all (fun y => f y ≤ f z)) =
            none := by
          rw [List.find?_eq_none]
          intro z hz hzall
          rw [List.all_append] at hzall
          have hx : f x ≤ f z := by
            rw [Bool.and_eq_true] at hzall
            simpa using hzall.2
          have hzhd : f z ≤ f hd := by
            have := List.all_eq_true.mp hall z hz
            simpa using this
          omega
        rw [firstMaxBy, List.find?_append, hnone, Option.none_or]
        have hx : ((l ++ [x]).all (fun y => f y ≤ f x)) = true := by
          rw [List.all_eq_true]
          intro y hy
          rcases List.mem_append.mp hy with hyl | hyx
          · have hyhd : f y ≤ f hd := by
              have := List.all_eq_true.mp hall y hyl
              simpa using this
            simp only [decide_eq_true_eq]
            omega
          · have hyx' : y = x := List.mem_singleton.mp hyx
            subst hyx'
            simp
        exact (List.find?_cons_of_pos
          (p := fun z => (l ++ [x]).all fun y => decide (f y ≤ f z)) [] hx).symm

theorem all_map_general {α β : Type} (f : α → β) (p : β → Bool) :
    ∀ l : List α, (l.map f).all p = l.all (fun x => p (f x))
  | [] => rfl
  | x :: xs => by simp [List.all_cons, all_map_general f p xs]

theorem firstMaxBy_map_pair {α : Type} (g : α → Int) (l : List α) :
    (firstMaxBy (fun p : α × Int => p.2) (l.map (fun e => (e, g e)))).map
      (fun p => p.1) = firstMaxBy g l := by
  unfold firstMaxBy
  rw [List.find?_map, Option.map_map]
  have hcomp : ((fun p : α × Int => p.1) ∘ (fun e => (e, g e))) = id := rfl
  rw [hcomp, Option.map_id]
  refine congrFun (congrArg List.find? ?_) l
  funext e
  simp [Function.comp, all_map_general]

theorem exists_max_mem {α : Type} (f : α → Int) :
    ∀ (l : List α), l ≠ [] → ∃ x ∈ l, ∀ y ∈ l, f y ≤ f x
  | [], h => absurd rfl h
  | a :: rest, _ => by
    rcases eq_or_ne rest [] with hrest | hrest
    · subst hrest
      refine ⟨a, by simp, ?_⟩
      intro y hy
      have hya : y = a := by simpa using hy
      subst hya
      exact le_rfl
    · obtain ⟨m, hm, hmax⟩ := exists_max_mem f rest hrest
      rcases le_or_lt (f a) (f m) with ham | ham
      · refine ⟨m, List.mem_cons_of_mem _ hm, ?_⟩
        intro y hy
        rcases List.mem_cons.mp hy with rfl | hy'
        · exact ham
        · exact hmax y hy'
      · refine ⟨a, List.mem_cons_self _ _, ?_⟩
        intro y hy
        rcases List.mem_cons.mp hy with rfl | hy'
        · exact le_rfl
        · exact le_trans (hmax y hy') (le_of_lt ham)

theorem firstMaxBy_isSome {α : Type} (f : α → Int) (l : List α) (hl : l ≠ []) :
    ∃ a, firstMaxBy f l = some a := by
  obtain ⟨x, hx, hmax⟩ := exists_max_mem f l hl
  unfold firstMaxBy
  cases hf : l.find? (fun z => l.all fun y => decide (f y ≤ f z)) with
  | some a => exact ⟨a, rfl⟩
  | none =>
    rw [List.find?_eq_none] at hf
    refine absurd ?_ (hf x hx)
    rw [List.all_eq_true]
    intro y hy
    simpa using hmax y hy

/-- C8: `findBestEmployeeForShift` returns `null` exactly when no employee is
available for the (date, shift-type); otherwise it returns the first element
of the shuffled eligible list attaining the maximal score, where the score is
exactly the specification's formula (`claimScore`), so exact-score ties are
resolved in favor of the shuffle order.  The hypotheses are the scorer's
crash-freedom precondition (claim C10's) and that the shuffle permutes its
input. -/
theorem findBestEmployeeForShift_spec (shuffle : List GenEmployee → List GenEmployee)
    (previousWeekSchedule : Option GenSchedule) (employees : List GenEmployee)
    (date : Int) (shiftType : String) (currentShifts : List GenShift)
    (hready : prevWeekReady previousWeekSchedule date shiftType)
    (hperm : (shuffle (employees.filter
        (fun e => isEmployeeAvailable e date shiftType))).Perm
      (employees.filter (fun e => isEmployeeAvailable e date shiftType))) :
    (findBestEmployeeForShift shuffle previousWeekSchedule employees date shiftType
        currentShifts =
      Except.ok (firstMaxBy
        (fun e => claimScore previousWeekSchedule e date shiftType currentShifts)
        (shuffle (employees.filter (fun e => isEmployeeAvailable e date shiftType))))) ∧
    (findBestEmployeeForShift shuffle previousWeekSchedule employees date shiftType
        currentShifts = Except.ok none ↔
      employees.filter (fun e => isEmployeeAvailable e date shiftType) = []) := by
  simp only [findBestEmployeeForShift]
  by_cases hlen : (employees.filter (fun e => isEmployeeAvailable e date shiftType)).length = 0
  · have hAnil : employees.filter (fun e => isEmployeeAvailable e date shiftType) = [] :=
      List.length_eq_zero.mp hlen
    have hshuf : shuffle (employees.filter
        (fun e => isEmployeeAvailable e date shiftType)) = [] := by
      apply List.length_eq_zero.mp
      rw [hperm.length_eq]
      exact hlen
    rw [if_pos hlen]
    constructor
    · rw [hshuf]
      rfl
    · simp [hAnil]
  · rw [if_neg hlen]
    have hmapOk : mapExcept (fun employee =>
        match scoreEmployee previousWeekSchedule employee date shiftType currentShifts with
        | Except.error e => Except.error e
        | Except.ok score => Except.ok (employee, score))
        (shuffle (employees.filter (fun e => isEmployeeAvailable e date shiftType))) =
        Except.ok ((shuffle (employees.filter
            (fun e => isEmployeeAvailable e date shiftType))).map (fun e =>
          (e, claimScore previousWeekSchedule e date shiftType currentShifts))) := by
      apply mapExcept_ok
      intro e _he
      rw [scoreEmployee_ok_of_ready hready]
    rw [hmapOk]
    simp only [head?_sortDescBy]
    constructor
    · rw [Except.ok.injEq]
      exact firstMaxBy_map_pair _ _
    · rw [Except.ok.injEq]
      constructor
      · intro h
        have hAne : employees.filter (fun e => isEmployeeAvailable e date shiftType) ≠ [] :=
          fun he => hlen (by simp [he])
        have hsne : shuffle (employees.filter
            (fun e => isEmployeeAvailable e date shiftType)) ≠ [] := by
          intro he
          rw [he] at hperm
          exact hAne (List.perm_nil.mp hperm.symm)
        obtain ⟨a, ha⟩ := firstMaxBy_isSome
          (fun e => claimScore previousWeekSchedule e date shiftType currentShifts) _ hsne
        rw [firstMaxBy_map_pair] at h
        rw [ha] at h
        cases h
      · intro h
        exact absurd (by simp [h]) hlen

/-- A generator-shape employee available on Thursdays with the formatted
morning preferred-shift entry, for the scorer witnesses. -/
def exFiona : GenEmployee :=
  { id := "f1", name := "Fiona", days := ["Thursday"], maxHoursPerDay := 8,
    preferredShifts := ["morning (6AM-2PM)"] }

/-- A previous-week schedule whose shifts map has no weekday entries. -/
def exPrevNoDays : GenSchedule :=
  { id := "p1", locationId := "L", locationName := "Loc", weekStart := -7,
    shifts := [], status := "published" }

/-- C8 witness: a concrete instantiation of `findBestEmployeeForShift_spec`
with the identity shuffle, no previous-week schedule, and one available
employee. -/
theorem findBestEmployeeForShift_spec_witness :
    (findBestEmployeeForShift (fun l => l) none [exFiona] 0 "morning" [] =
      Except.ok (firstMaxBy (fun e => claimScore none e 0 "morning" [])
        ((fun l => l) ([exFiona].filter (fun e => isEmployeeAvailable e 0 "morning"))))) ∧
    (findBestEmployeeForShift (fun l => l) none [exFiona] 0 "morning" [] =
        Except.ok none ↔
      [exFiona].filter (fun e => isEmployeeAvailable e 0 "morning") = []) := by
  exact findBestEmployeeForShift_spec (fun l => l) none [exFiona] 0 "morning" []
    (fun p hp => nomatch hp) (List.Perm.refl _)

/-- C10: when a previous-week schedule is supplied whose shifts map lacks the
entry for the queried weekday, `hadShiftLastWeek` throws (dereferences
`undefined`) for every employee, and `findBestEmployeeForShift` throws
instead of returning a candidate or null whenever at least one employee is
available; conversely, under the precondition that no previous-week schedule
was supplied or the weekday entry with the queried shift-type array is
present, the scorer always returns without throwing. -/
theorem scorer_crash_on_missing_weekday (shuffle : List GenEmployee → List GenEmployee)
    (p : GenSchedule) (employees : List GenEmployee) (date : Int)
    (shiftType : String) (currentShifts : List GenShift) :
    (lookupKey (dayOfWeekName (date - 7)) p.shifts = none →
      (∀ e, hadShiftLastWeek (some p) e date shiftType = Except.error ()) ∧
      ((∃ e ∈ employees, isEmployeeAvailable e date shiftType = true) →
        (shuffle (employees.filter
            (fun e => isEmployeeAvailable e date shiftType))).Perm
          (employees.filter (fun e => isEmployeeAvailable e date shiftType)) →
        findBestEmployeeForShift shuffle (some p) employees date shiftType
          currentShifts = Except.error ())) ∧
    (∀ prevOpt : Option GenSchedule, prevWeekReady prevOpt date shiftType →
      ∃ r, findBestEmployeeForShift shuffle prevOpt employees date shiftType
        currentShifts = Except.ok r) := by
  refine ⟨fun hmiss => ⟨?_, ?_⟩, ?_⟩
  · intro e
    simp [hadShiftLastWeek, hmiss]
  · intro hex hperm
    obtain ⟨e, he, hav⟩ := hex
    have heA : e ∈ employees.filter (fun x => isEmployeeAvailable x date shiftType) :=
      List.mem_filter.mpr ⟨he, hav⟩
    have hlen : ¬ (employees.filter
        (fun e => isEmployeeAvailable e date shiftType)).length = 0 := by
      intro h0
      rw [List.length_eq_zero.mp h0] at heA
      exact absurd heA (List.not_mem_nil e)
    simp only [findBestEmployeeForShift]
    rw [if_neg hlen]
    cases hsh : shuffle (employees.filter
        (fun e => isEmployeeAvailable e date shiftType)) with
    | nil =>
      rw [hsh] at hperm
      rw [List.perm_nil.mp hperm.symm] at heA
      exact absurd heA (List.not_mem_nil e)
    | cons x xs =>
      have hscore : scoreEmployee (some p) x date shiftType currentShifts =
          Except.error () := by
        simp [scoreEmployee, hadShiftLastWeek, hmiss]
      have hf : (fun employee =>
          match scoreEmployee (some p) employee date shiftType currentShifts with
          | Except.error e => Except.error e
          | Except.ok score => Except.ok (employee, score)) x = Except.error () := by
        simp [hscore]
      rw [mapExcept_error_head _ x xs () hf]
  · intro prevOpt hready
    simp only [findBestEmployeeForShift]
    by_cases hlen : (employees.filter
        (fun e => isEmployeeAvailable e date shiftType)).length = 0
    · rw [if_pos hlen]
      exact ⟨none, rfl⟩
    · rw [if_neg hlen]
      rw [mapExcept_ok _
        (fun e => (e, claimScore prevOpt e date shiftType currentShifts)) _
        (fun e _ => by rw [scoreEmployee_ok_of_ready hready])]
      exact ⟨_, rfl⟩

/-- C10 witness: a concrete instantiation of
`scorer_crash_on_missing_weekday`: the empty shifts map makes the scorer
throw for the available employee Fiona, while with no previous-week schedule
the scorer returns normally. -/
theorem scorer_crash_on_missing_weekday_witness :
    hadShiftLastWeek (some exPrevNoDays) exFiona 0 "morning" = Except.error () ∧
    findBestEmployeeForShift (fun l => l) (some exPrevNoDays) [exFiona] 0 "morning" [] =
      Except.error () ∧
    ∃ r, findBestEmployeeForShift (fun l => l) none [exFiona] 0 "morning" [] =
      Except.ok r := by
  have h := scorer_crash_on_missing_weekday (fun l => l) exPrevNoDays [exFiona] 0
    "morning" []
  exact ⟨(h.1 rfl).1 exFiona,
    (h.1 rfl).2 ⟨exFiona, by decide, by decide⟩ (List.Perm.refl _),
    h.2 none (fun q hq => nomatch hq)⟩
